import Mathlib

/-!
Verification of the recurring-campaign scheduler embedded in
`src/backend/src/services/MailchimpService.js` (`processRecurringCampaigns`),
against the EmailCampaign schema of the repository.

The JavaScript code manipulates `Date` objects through `getDate/setDate`,
`getMonth/setMonth`, `getFullYear`, `getDay` and `setHours`.  We embed those
operations over a plain calendar record (proleptic Gregorian, no time zone):
`setDate`/`setMonth` set the corresponding field and normalize overflow into
the following months exactly as the ECMAScript `MakeDay` algorithm does for
the argument ranges that occur in this program (all `setDate` arguments are
at least 1, all `setMonth` arguments are at most 14).
-/

/-- A JavaScript `Date`, viewed as local calendar fields.  `month` is 0-based
(0 = January) as in JS `getMonth`; `day` is 1-based as in `getDate`. -/
structure JSDate where
  year : Nat
  month : Nat
  day : Nat
  hour : Nat
  minute : Nat
  second : Nat
  ms : Nat
deriving DecidableEq, Repr

/-- ECMAScript leap-year rule (divisible by 4, not by 100 unless by 400). -/
def leapYear (y : Nat) : Bool :=
  (y % 4 == 0 && y % 100 != 0) || y % 400 == 0

/-- Length of month `m` (0-based) of year `y`; this is what the source reads
as `new Date(year, month + 1, 0).getDate()`. -/
def daysInMonth (y m : Nat) : Nat :=
  if m = 1 then (if leapYear y then 29 else 28)
  else if m == 3 || m == 5 || m == 8 || m == 10 then 30
  else 31

/-- Cumulative number of days before month `m` (0-based) in year `y`;
values at `m ≥ 12` (only `m = 12` is ever used) give the year length. -/
def daysBeforeMonth (y m : Nat) : Nat :=
  (if m = 0 then 0 else if m = 1 then 31 else if m = 2 then 59
   else if m = 3 then 90 else if m = 4 then 120 else if m = 5 then 151
   else if m = 6 then 181 else if m = 7 then 212 else if m = 8 then 243
   else if m = 9 then 273 else if m = 10 then 304 else if m = 11 then 334
   else 365)
  + (if 2 ≤ m then (if leapYear y then 1 else 0) else 0)

/-- Days from 0001-01-01 to the first day of year `y` (proleptic Gregorian). -/
def daysBeforeYear (y : Nat) : Nat :=
  365 * (y - 1) + (y - 1) / 4 - (y - 1) / 100 + (y - 1) / 400

/-- Day number of the calendar date `(y, m, d)` counted from 0001-01-01. -/
def toDays (y m d : Nat) : Nat :=
  daysBeforeYear y + daysBeforeMonth y m + (d - 1)

/-- Day-overflow normalization of ECMAScript `MakeDay`, with explicit fuel:
while the day exceeds the current month's length, it is carried into the
following month.  Every iteration lowers the day by at least 28, so any fuel
of at least `d` reproduces the unbounded loop (`normDayFuel_congr`). -/
def normDayFuel : Nat → Nat → Nat → Nat → Nat × Nat × Nat
  | 0, y, m, d => (y, m, d)
  | fuel + 1, y, m, d =>
    if daysInMonth y m < d then
      if m = 11 then normDayFuel fuel (y + 1) 0 (d - daysInMonth y m)
      else normDayFuel fuel y (m + 1) (d - daysInMonth y m)
    else (y, m, d)

/-- Day-overflow normalization of ECMAScript `MakeDay` (fuel `d` always
suffices because each carry removes a whole month of at least 28 days). -/
def normDay (y m d : Nat) : Nat × Nat × Nat :=
  normDayFuel d y m d

/-- JS `d.setDate(n)` for `n ≥ 1`: set the day-of-month field, carrying
overflow into later months. -/
def setDate (d : JSDate) (n : Nat) : JSDate :=
  let r := normDay d.year d.month n
  { d with year := r.1, month := r.2.1, day := r.2.2 }

/-- JS `d.setMonth(n)` for `n ≥ 0`: set the (0-based) month field, carrying
a month overflow into the year and a day overflow into later months. -/
def setMonth (d : JSDate) (n : Nat) : JSDate :=
  let r := normDay (d.year + n / 12) (n % 12) d.day
  { d with year := r.1, month := r.2.1, day := r.2.2 }

/-- JS `d.getDay()`: 0 = Sunday, ..., 6 = Saturday.  The offset is fixed by
0001-01-01 (proleptic Gregorian) being a Monday. -/
def getDay (d : JSDate) : Nat :=
  (toDays d.year d.month d.day + 1) % 7

/-- Day-number part of a `JSDate`. -/
def dayNumber (d : JSDate) : Nat :=
  toDays d.year d.month d.day

/-- JS time value of a date (milliseconds, shifted to a Nat scale); dates
compare with `<=` / `<` through this value. -/
def toMs (d : JSDate) : Nat :=
  (((dayNumber d * 24 + d.hour) * 60 + d.minute) * 60 + d.second) * 1000 + d.ms

/-- A structurally well-formed date: every field in the range JS `Date`
accessors return for a normalized date. -/
def ValidDate (d : JSDate) : Prop :=
  1 ≤ d.year ∧ d.month ≤ 11 ∧ 1 ≤ d.day ∧ d.day ≤ daysInMonth d.year d.month ∧
  d.hour ≤ 23 ∧ d.minute ≤ 59 ∧ d.second ≤ 59 ∧ d.ms ≤ 999

instance (d : JSDate) : Decidable (ValidDate d) := by
  unfold ValidDate; infer_instance

/-- The `recurring` sub-document of the EmailCampaign schema.  `timeOfDay` is
the `"HH:MM"` string, kept here already split into its hour/minute numbers
(the source splits on `":"` and maps `Number` over the two parts). -/
structure Recurring where
  enabled : Bool
  frequency : String
  dayOfWeek : Option Nat
  dayOfMonth : Option Nat
  timeOfDay : Option (Nat × Nat)
  lastSent : Option JSDate
  nextScheduled : Option JSDate
deriving DecidableEq, Repr

/-- The `switch (campaign.recurring.frequency)` block: advance the working
date by the base interval; the `default` arm repeats the `monthly` arm. -/
def baseAdvance (frequency : String) (d : JSDate) : JSDate :=
  if frequency = "daily" then setDate d (d.day + 1)
  else if frequency = "weekly" then setDate d (d.day + 7)
  else if frequency = "biweekly" then setDate d (d.day + 14)
  else if frequency = "monthly" then setMonth d (d.month + 1)
  else if frequency = "quarterly" then setMonth d (d.month + 3)
  else setMonth d (d.month + 1)

/-- The `while (nextDate.getDay() !== dayOfWeek)` search, with explicit fuel.
For any target in 0..6 the JS loop stops within 6 iterations, so fuel 7 is
enough to reproduce it exactly (proved below); for a target outside 0..6 the
JS loop does not terminate at all. -/
def advanceToWeekdayFuel : Nat → Nat → JSDate → JSDate
  | 0, _, d => d
  | fuel + 1, target, d =>
    if getDay d = target then d
    else advanceToWeekdayFuel fuel target (setDate d (d.day + 1))

/-- The `if (dayOfWeek !== undefined && frequency !== 'daily')` adjustment. -/
def stageWeek (r : Recurring) (d : JSDate) : JSDate :=
  match r.dayOfWeek with
  | some w => if r.frequency ≠ "daily" then advanceToWeekdayFuel 7 w d else d
  | none => d

/-- The `if (dayOfMonth && ['monthly', 'quarterly'].includes(frequency))`
clamp; `dayOfMonth` is truthy exactly when present and nonzero, and `maxDay`
is `new Date(year, month + 1, 0).getDate() = daysInMonth year month`. -/
def stageClamp (r : Recurring) (d : JSDate) : JSDate :=
  match r.dayOfMonth with
  | some dom =>
    if dom ≠ 0 ∧ (r.frequency = "monthly" ∨ r.frequency = "quarterly") then
      setDate d (min dom (daysInMonth d.year d.month))
    else d
  | none => d

/-- The `if (timeOfDay) { ... setHours(hours, minutes, 0, 0) }` step.  For a
well-formed `"HH:MM"` string the arguments are in range, so no overflow
normalization occurs. -/
def stageTime (r : Recurring) (d : JSDate) : JSDate :=
  match r.timeOfDay with
  | some hm => { d with hour := hm.1, minute := hm.2, second := 0, ms := 0 }
  | none => d

/-- The next-occurrence computation inlined in `processRecurringCampaigns`
(spec name `computeNextOccurrence`): base interval, then day-of-week search,
then day-of-month clamp, then time of day. -/
def computeNextOccurrence (r : Recurring) (now : JSDate) : JSDate :=
  stageTime r (stageClamp r (stageWeek r (baseAdvance r.frequency now)))

/-- Schema-level well-formedness of the recurrence fields (`dayOfWeek` in
0..6, `dayOfMonth` in 1..31, `timeOfDay` a valid `"HH:MM"` time). -/
def validRule (r : Recurring) : Bool :=
  (match r.dayOfWeek with
   | none => true
   | some w => decide (w < 7)) &&
  (match r.dayOfMonth with
   | none => true
   | some dom => decide (1 ≤ dom) && decide (dom ≤ 31)) &&
  (match r.timeOfDay with
   | none => true
   | some hm => decide (hm.1 < 24) && decide (hm.2 < 60))

/-- A stored EmailCampaign document, restricted to the fields
`processRecurringCampaigns` reads or writes. -/
structure Campaign where
  name : String
  description : String
  type : String
  template : String
  segment : String
  recurring : Recurring
  status : String
deriving DecidableEq, Repr

/-- The freshly materialized one-shot campaign document created by
`EmailCampaign.create` inside the loop. -/
structure CampaignInstance where
  name : String
  description : String
  type : String
  template : String
  segment : String
  scheduledFor : JSDate
  status : String
deriving DecidableEq, Repr

/-- One entry of the `results` array pushed per processed definition. -/
structure Outcome where
  campaign : String
  success : Bool
  nextScheduled : Option JSDate
  error : Option String
deriving DecidableEq, Repr

/-- Behaviour of the external Mailchimp dispatcher for one firing: the
`createCampaign` call fails, or it succeeds and the `scheduleCampaign` call
fails, or both succeed. -/
inductive DispatchOutcome where
  | createFail
  | scheduleFail
  | ok
deriving DecidableEq, Repr

/-- JS `Date.prototype.toLocaleDateString` in the en-US default used when
deriving the instance name. -/
def toLocaleDateString (d : JSDate) : String :=
  toString (d.month + 1) ++ "/" ++ toString d.day ++ "/" ++ toString d.year

/-- The due test `if (!nextScheduled || nextScheduled <= now)`; a missing
`nextScheduled` is falsy, a present one compares by time value. -/
def isDue (c : Campaign) (now : JSDate) : Bool :=
  match c.recurring.nextScheduled with
  | none => true
  | some ns => decide (toMs ns ≤ toMs now)

/-- The instance document built by `EmailCampaign.create` inside the loop,
with the status it has in the store at a given point of the firing. -/
def instanceFor (c : Campaign) (nextDate : JSDate) (st : String) : CampaignInstance :=
  { name := c.name ++ " - " ++ toLocaleDateString nextDate,
    description := c.description, type := c.type, template := c.template,
    segment := c.segment, scheduledFor := nextDate, status := st }

/-- The result entry pushed for one due definition: on success the code
pushes `{campaign, nextScheduled, success: true}`; on a thrown dispatch error
the catch block pushes `{campaign, success: false, error: error.message}`
with the message built by the corresponding `throw new Error(...)`. -/
def outcomeFor (d : DispatchOutcome) (now : JSDate) (c : Campaign) : Outcome :=
  match d with
  | .ok =>
    { campaign := c.name, success := true,
      nextScheduled := some (computeNextOccurrence c.recurring now), error := none }
  | .createFail =>
    { campaign := c.name, success := false, nextScheduled := none,
      error := some "Failed to create campaign in Mailchimp: Error creating campaign in Mailchimp" }
  | .scheduleFail =>
    { campaign := c.name, success := false, nextScheduled := none,
      error := some "Failed to schedule campaign in Mailchimp: Error scheduling campaign in Mailchimp" }

/-- One iteration of the `for (const campaign of campaigns)` loop, given the
dispatcher behaviour for this firing.  It returns the definition as left in
the store, the instance documents added to the store, and the result entries
pushed.  A new instance document is persisted (status `draft`) before any
dispatcher call; a successful `createCampaign` updates it to `scheduled`
before the schedule call; `lastSent`/`nextScheduled` are advanced and saved
only after both dispatcher calls succeed. -/
def stepDef (d : DispatchOutcome) (now : JSDate) (c : Campaign) :
    Campaign × List CampaignInstance × List Outcome :=
  if isDue c now then
    let nextDate := computeNextOccurrence c.recurring now
    match d with
    | .createFail =>
      (c, [instanceFor c nextDate "draft"], [outcomeFor .createFail now c])
    | .scheduleFail =>
      (c, [instanceFor c nextDate "scheduled"], [outcomeFor .scheduleFail now c])
    | .ok =>
      ({ c with recurring :=
          { c.recurring with lastSent := some now, nextScheduled := some nextDate } },
       [instanceFor c nextDate "scheduled"], [outcomeFor .ok now c])
  else (c, [], [])

/-- The whole campaign loop; the dispatcher behaviour is indexed by the
position of the definition in the polled list. -/
def processList (now : JSDate) (dispatch : Nat → DispatchOutcome) :
    Nat → List Campaign → List Campaign × List CampaignInstance × List Outcome
  | _, [] => ([], [], [])
  | i, c :: rest =>
    let r1 := stepDef (dispatch i) now c
    let r2 := processList now dispatch (i + 1) rest
    (r1.1 :: r2.1, r1.2.1 ++ r2.2.1, r1.2.2 ++ r2.2.2)

/-- The initial query
`EmailCampaign.find({'recurring.enabled': true, status: {$in: ['draft', 'sent']}})`. -/
def selectRecurring (store : List Campaign) : List Campaign :=
  store.filter (fun c => c.recurring.enabled && (c.status == "draft" || c.status == "sent"))

/-- The top-level return value of `processRecurringCampaigns`. -/
structure TopResult where
  success : Bool
  message : String
  results : List Outcome
deriving DecidableEq, Repr

/-- `processRecurringCampaigns` over a store of campaign documents: when the
initial query succeeds it processes every selected definition and reports
`success: true`; when the query throws, the outer catch reports failure.  The
second and third components are the selected definitions as left in the store
and the instance documents added to the store. -/
def processRecurringCampaigns (findOk : Bool) (store : List Campaign)
    (dispatch : Nat → DispatchOutcome) (now : JSDate) :
    TopResult × List Campaign × List CampaignInstance :=
  if findOk then
    let r := processList now dispatch 0 (selectRecurring store)
    ({ success := true, message := "Recurring campaigns processed", results := r.2.2 },
     r.1, r.2.1)
  else
    ({ success := false, message := "Error processing recurring campaigns", results := [] },
     [], [])

/-! ### Calendar arithmetic lemmas -/

theorem daysInMonth_ge (y m : Nat) : 28 ≤ daysInMonth y m := by
  unfold daysInMonth; split_ifs <;> omega

theorem daysInMonth_le (y m : Nat) : daysInMonth y m ≤ 31 := by
  unfold daysInMonth; split_ifs <;> omega

theorem leapYear_iff (y : Nat) :
    leapYear y = true ↔ ((y % 4 = 0 ∧ y % 100 ≠ 0) ∨ y % 400 = 0) := by
  simp [leapYear]

theorem daysBeforeMonth_succ (y m : Nat) (hm : m ≤ 11) :
    daysBeforeMonth y (m + 1) = daysBeforeMonth y m + daysInMonth y m := by
  rcases h : leapYear y with _ | _ <;>
    interval_cases m <;>
      simp [daysBeforeMonth, daysInMonth, h]

theorem daysBeforeMonth_zero (y : Nat) : daysBeforeMonth y 0 = 0 := rfl

theorem daysBeforeMonth_twelve (y : Nat) :
    daysBeforeMonth y 12 = 365 + (if leapYear y then 1 else 0) := by
  unfold daysBeforeMonth
  norm_num

set_option maxHeartbeats 2000000 in
theorem daysBeforeYear_succ (y : Nat) (hy : 1 ≤ y) :
    daysBeforeYear (y + 1) = daysBeforeYear y + daysBeforeMonth y 12 := by
  rw [daysBeforeMonth_twelve]
  unfold daysBeforeYear
  rcases h2 : leapYear y with _ | _
  · have h3 : ¬ ((y % 4 = 0 ∧ y % 100 ≠ 0) ∨ y % 400 = 0) := by
      rw [← leapYear_iff, h2]; simp
    simp only [Bool.false_eq_true, if_false]
    omega
  · have h3 := (leapYear_iff y).mp h2
    simp only [if_true]
    omega

/-- Day number of the first day of the month with absolute month index `k`
(the index of month `m` of year `y` is `12 * y + m`). -/
def monthIndexDays (k : Nat) : Nat :=
  daysBeforeYear (k / 12) + daysBeforeMonth (k / 12) (k % 12)

theorem monthIndexDays_succ (k : Nat) (hk : 12 ≤ k) :
    monthIndexDays (k + 1) = monthIndexDays k + daysInMonth (k / 12) (k % 12) := by
  rcases Nat.lt_or_ge (k % 12) 11 with hcase | hcase
  · have h1 : (k + 1) / 12 = k / 12 := by omega
    have h2 : (k + 1) % 12 = k % 12 + 1 := by omega
    unfold monthIndexDays
    rw [h1, h2, daysBeforeMonth_succ (k / 12) (k % 12) (by omega)]
    omega
  · have hr11 : k % 12 = 11 := by omega
    have hq1 : 1 ≤ k / 12 := by omega
    have h1 : (k + 1) / 12 = k / 12 + 1 := by omega
    have h2 : (k + 1) % 12 = 0 := by omega
    have h12 : daysBeforeMonth (k / 12) 12
        = daysBeforeMonth (k / 12) 11 + daysInMonth (k / 12) 11 := by
      simpa using daysBeforeMonth_succ (k / 12) 11 (by omega)
    unfold monthIndexDays
    rw [h1, h2, daysBeforeMonth_zero, daysBeforeYear_succ (k / 12) hq1, h12, hr11]
    omega

theorem monthIndexDays_add (k n : Nat) (hk : 12 ≤ k) :
    monthIndexDays k + 28 * n ≤ monthIndexDays (k + n) := by
  induction n with
  | zero => simp
  | succ n ih =>
    rw [← Nat.add_assoc]
    have hs := monthIndexDays_succ (k + n) (by omega)
    have hd := daysInMonth_ge ((k + n) / 12) ((k + n) % 12)
    omega

theorem monthIndexDays_mono (k l : Nat) (hk : 12 ≤ k) (hkl : k ≤ l) :
    monthIndexDays k ≤ monthIndexDays l := by
  have h1 := monthIndexDays_add k (l - k) hk
  have h2 : k + (l - k) = l := by omega
  rw [h2] at h1
  omega

theorem toDays_eq_mid (y m d : Nat) (hm : m ≤ 11) :
    toDays y m d = monthIndexDays (12 * y + m) + (d - 1) := by
  have h1 : (12 * y + m) / 12 = y := by omega
  have h2 : (12 * y + m) % 12 = m := by omega
  unfold toDays monthIndexDays
  rw [h1, h2]

/-! ### Normalization lemmas -/

theorem normDayFuel_congr : ∀ (f1 f2 y m d : Nat), d ≤ f1 → d ≤ f2 →
    normDayFuel f1 y m d = normDayFuel f2 y m d := by
  intro f1
  induction f1 with
  | zero =>
    intro f2 y m d h1 h2
    have hd0 : d = 0 := by omega
    subst hd0
    cases f2 with
    | zero => rfl
    | succ f2 =>
      have hnot : ¬ daysInMonth y m < 0 := by omega
      simp [normDayFuel, hnot]
  | succ f1 ih =>
    intro f2 y m d h1 h2
    cases f2 with
    | zero =>
      have hd0 : d = 0 := by omega
      subst hd0
      have hnot : ¬ daysInMonth y m < 0 := by omega
      simp [normDayFuel, hnot]
    | succ f2 =>
      have hdim := daysInMonth_ge y m
      by_cases h : daysInMonth y m < d
      · by_cases hm : m = 11
        · simp only [normDayFuel, if_pos h, if_pos hm]
          subst hm
          exact ih f2 (y + 1) 0 (d - daysInMonth y 11) (by omega) (by omega)
        · simp only [normDayFuel, if_pos h, if_neg hm]
          exact ih f2 y (m + 1) (d - daysInMonth y m) (by omega) (by omega)
      · simp only [normDayFuel, if_neg h]

theorem normDay_step (y m d : Nat) :
    normDay y m d =
      if daysInMonth y m < d then
        if m = 11 then normDay (y + 1) 0 (d - daysInMonth y m)
        else normDay y (m + 1) (d - daysInMonth y m)
      else (y, m, d) := by
  have hdim := daysInMonth_ge y m
  cases d with
  | zero =>
    have hnot : ¬ daysInMonth y m < 0 := by omega
    simp [normDay, normDayFuel, hnot]
  | succ d =>
    unfold normDay
    by_cases h : daysInMonth y m < d + 1
    · by_cases hm : m = 11
      · simp only [normDayFuel, if_pos h, if_pos hm]
        subst hm
        exact normDayFuel_congr d (d + 1 - daysInMonth y 11) (y + 1) 0
          (d + 1 - daysInMonth y 11) (by omega) (by omega)
      · simp only [normDayFuel, if_pos h, if_neg hm]
        exact normDayFuel_congr d (d + 1 - daysInMonth y m) y (m + 1)
          (d + 1 - daysInMonth y m) (by omega) (by omega)
    · simp only [normDayFuel, if_neg h]

theorem normDay_spec : ∀ (d y m : Nat), 1 ≤ y → m ≤ 11 → 1 ≤ d →
    1 ≤ (normDay y m d).1 ∧ (normDay y m d).2.1 ≤ 11 ∧ 1 ≤ (normDay y m d).2.2 ∧
    (normDay y m d).2.2 ≤ daysInMonth (normDay y m d).1 (normDay y m d).2.1 ∧
    toDays (normDay y m d).1 (normDay y m d).2.1 (normDay y m d).2.2
      = daysBeforeYear y + daysBeforeMonth y m + (d - 1) ∧
    12 * y + m ≤ 12 * (normDay y m d).1 + (normDay y m d).2.1 := by
  intro d
  induction d using Nat.strong_induction_on with
  | _ d ih =>
    intro y m hy hm hd
    have hdim := daysInMonth_ge y m
    by_cases h : daysInMonth y m < d
    · by_cases hm11 : m = 11
      · subst hm11
        have he : normDay y 11 d = normDay (y + 1) 0 (d - daysInMonth y 11) := by
          rw [normDay_step]
          simp [h]
        rw [he]
        obtain ⟨a1, a2, a3, a4, a5, a6⟩ :=
          ih (d - daysInMonth y 11) (by omega) (y + 1) 0 (by omega) (by omega) (by omega)
        refine ⟨a1, a2, a3, a4, ?_, by omega⟩
        have h12 : daysBeforeMonth y 12 = daysBeforeMonth y 11 + daysInMonth y 11 := by
          simpa using daysBeforeMonth_succ y 11 (by omega)
        rw [a5, daysBeforeMonth_zero, daysBeforeYear_succ y (by omega), h12]
        omega
      · have he : normDay y m d = normDay y (m + 1) (d - daysInMonth y m) := by
          rw [normDay_step]
          simp [h, hm11]
        rw [he]
        obtain ⟨a1, a2, a3, a4, a5, a6⟩ :=
          ih (d - daysInMonth y m) (by omega) y (m + 1) (by omega) (by omega) (by omega)
        refine ⟨a1, a2, a3, a4, ?_, by omega⟩
        rw [a5, daysBeforeMonth_succ y m (by omega)]
        omega
    · have he : normDay y m d = (y, m, d) := by
        rw [normDay_step]
        simp [h]
      rw [he]
      exact ⟨hy, hm, hd, show d ≤ daysInMonth y m by omega, rfl,
        show 12 * y + m ≤ 12 * y + m by omega⟩

/-! ### Field-update lemmas for the JS date setters -/

theorem setDate_spec (d : JSDate) (n : Nat) (hv : ValidDate d) (hn : 1 ≤ n) :
    ValidDate (setDate d n) ∧
    dayNumber (setDate d n) = dayNumber d + n - d.day ∧
    12 * d.year + d.month ≤ 12 * (setDate d n).year + (setDate d n).month ∧
    (setDate d n).hour = d.hour ∧ (setDate d n).minute = d.minute ∧
    (setDate d n).second = d.second ∧ (setDate d n).ms = d.ms := by
  obtain ⟨v1, v2, v3, v4, v5, v6, v7, v8⟩ := hv
  obtain ⟨a1, a2, a3, a4, a5, a6⟩ := normDay_spec n d.year d.month v1 v2 hn
  refine ⟨⟨a1, a2, a3, a4, v5, v6, v7, v8⟩, ?_, a6, rfl, rfl, rfl, rfl⟩
  have hd2 : dayNumber (setDate d n)
      = toDays (normDay d.year d.month n).1 (normDay d.year d.month n).2.1
          (normDay d.year d.month n).2.2 := rfl
  have hd1 : dayNumber d = daysBeforeYear d.year + daysBeforeMonth d.year d.month + (d.day - 1) := rfl
  rw [hd2, a5, hd1]
  omega

theorem setMonth_spec (d : JSDate) (n : Nat) (hv : ValidDate d) :
    ValidDate (setMonth d n) ∧
    dayNumber (setMonth d n) = monthIndexDays (12 * d.year + n) + (d.day - 1) ∧
    12 * d.year + n ≤ 12 * (setMonth d n).year + (setMonth d n).month ∧
    (setMonth d n).hour = d.hour ∧ (setMonth d n).minute = d.minute ∧
    (setMonth d n).second = d.second ∧ (setMonth d n).ms = d.ms := by
  obtain ⟨v1, v2, v3, v4, v5, v6, v7, v8⟩ := hv
  obtain ⟨a1, a2, a3, a4, a5, a6⟩ :=
    normDay_spec d.day (d.year + n / 12) (n % 12) (by omega) (by omega) v3
  have e1 : (12 * d.year + n) / 12 = d.year + n / 12 := by omega
  have e2 : (12 * d.year + n) % 12 = n % 12 := by omega
  have p1 : (setMonth d n).year = (normDay (d.year + n / 12) (n % 12) d.day).1 := rfl
  have p2 : (setMonth d n).month = (normDay (d.year + n / 12) (n % 12) d.day).2.1 := rfl
  refine ⟨⟨a1, a2, a3, a4, v5, v6, v7, v8⟩, ?_, by rw [p1, p2]; omega, rfl, rfl, rfl, rfl⟩
  have hd2 : dayNumber (setMonth d n)
      = toDays (normDay (d.year + n / 12) (n % 12) d.day).1
          (normDay (d.year + n / 12) (n % 12) d.day).2.1
          (normDay (d.year + n / 12) (n % 12) d.day).2.2 := rfl
  rw [hd2, a5]
  unfold monthIndexDays
  rw [e1, e2]

theorem getDay_lt (d : JSDate) : getDay d < 7 :=
  Nat.mod_lt _ (by omega)

theorem getDay_eq (d : JSDate) : getDay d = (dayNumber d + 1) % 7 := rfl

theorem dayNumber_lt_of_ym_lt (a b : JSDate)
    (ham : a.month ≤ 11) (haday : a.day ≤ daysInMonth a.year a.month)
    (hbm : b.month ≤ 11) (hbday : 1 ≤ b.day) (hay : 1 ≤ a.year)
    (hlt : 12 * a.year + a.month < 12 * b.year + b.month) :
    dayNumber a < dayNumber b := by
  have e1 : dayNumber a = monthIndexDays (12 * a.year + a.month) + (a.day - 1) :=
    toDays_eq_mid a.year a.month a.day ham
  have e2 : dayNumber b = monthIndexDays (12 * b.year + b.month) + (b.day - 1) :=
    toDays_eq_mid b.year b.month b.day hbm
  have hs := monthIndexDays_succ (12 * a.year + a.month) (by omega)
  have e3 : (12 * a.year + a.month) / 12 = a.year := by omega
  have e4 : (12 * a.year + a.month) % 12 = a.month := by omega
  rw [e3, e4] at hs
  have hmono := monthIndexDays_mono (12 * a.year + a.month + 1)
    (12 * b.year + b.month) (by omega) (by omega)
  have hdima := daysInMonth_ge a.year a.month
  omega

/-! ### The day-of-week search -/

theorem advanceToWeekday_spec (t : Nat) (ht : t < 7) :
    ∀ (fuel : Nat) (d : JSDate), ValidDate d → (t + 7 - getDay d) % 7 ≤ fuel →
    ValidDate (advanceToWeekdayFuel fuel t d) ∧
    dayNumber (advanceToWeekdayFuel fuel t d) = dayNumber d + (t + 7 - getDay d) % 7 ∧
    getDay (advanceToWeekdayFuel fuel t d) = t ∧
    (advanceToWeekdayFuel fuel t d).hour = d.hour ∧
    (advanceToWeekdayFuel fuel t d).minute = d.minute ∧
    (advanceToWeekdayFuel fuel t d).second = d.second ∧
    (advanceToWeekdayFuel fuel t d).ms = d.ms := by
  intro fuel
  induction fuel with
  | zero =>
    intro d hv hf
    have he : advanceToWeekdayFuel 0 t d = d := rfl
    rw [he]
    have hw := getDay_lt d
    have hgd : getDay d = t := by omega
    exact ⟨hv, by omega, hgd, rfl, rfl, rfl, rfl⟩
  | succ fuel ih =>
    intro d hv hf
    by_cases hgd : getDay d = t
    · have h0 : (t + 7 - getDay d) % 7 = 0 := by rw [hgd]; omega
      have he : advanceToWeekdayFuel (fuel + 1) t d = d := by
        simp [advanceToWeekdayFuel, hgd]
      rw [he]
      exact ⟨hv, by omega, hgd, rfl, rfl, rfl, rfl⟩
    · have hv3 : 1 ≤ d.day := hv.2.2.1
      obtain ⟨sv, sdn, _, sh, smin, ss, sms⟩ := setDate_spec d (d.day + 1) hv (by omega)
      have hdn2 : dayNumber (setDate d (d.day + 1)) = dayNumber d + 1 := by omega
      have hw := getDay_lt d
      have hgd2 : getDay (setDate d (d.day + 1)) = (getDay d + 1) % 7 := by
        rw [getDay_eq, getDay_eq, hdn2]
        omega
      have hneed : (t + 7 - getDay (setDate d (d.day + 1))) % 7
          = (t + 7 - getDay d) % 7 - 1 := by
        rw [hgd2]
        omega
      have he : advanceToWeekdayFuel (fuel + 1) t d
          = advanceToWeekdayFuel fuel t (setDate d (d.day + 1)) := by
        simp [advanceToWeekdayFuel, hgd]
      obtain ⟨b1, b2, b3, bh, bm, bs, bms⟩ := ih (setDate d (d.day + 1)) sv (by omega)
      rw [he]
      refine ⟨b1, ?_, b3, by rw [bh, sh], by rw [bm, smin], by rw [bs, ss], by rw [bms, sms]⟩
      rw [b2, hdn2, hneed]
      omega

/-! ### Stage lemmas for the next-occurrence computation -/

theorem monthIndexDays_succ_ym (y m : Nat) (hm : m ≤ 11) (hy : 1 ≤ y) :
    monthIndexDays (12 * y + m + 1) = monthIndexDays (12 * y + m) + daysInMonth y m := by
  have hs := monthIndexDays_succ (12 * y + m) (by omega)
  have e3 : (12 * y + m) / 12 = y := by omega
  have e4 : (12 * y + m) % 12 = m := by omega
  rw [e3, e4] at hs
  exact hs

theorem validRule_parts (r : Recurring) (hr : validRule r = true) :
    (∀ w, r.dayOfWeek = some w → w < 7) ∧
    (∀ dom, r.dayOfMonth = some dom → 1 ≤ dom ∧ dom ≤ 31) ∧
    (∀ hm, r.timeOfDay = some hm → hm.1 < 24 ∧ hm.2 < 60) := by
  unfold validRule at hr
  simp only [Bool.and_eq_true] at hr
  obtain ⟨⟨h1, h2⟩, h3⟩ := hr
  refine ⟨?_, ?_, ?_⟩
  · intro w hw
    rw [hw] at h1
    simpa using h1
  · intro dom hdom
    rw [hdom] at h2
    simpa using h2
  · intro hm hhm
    rw [hhm] at h3
    simpa using h3

theorem stageWeek_spec (r : Recurring) (d : JSDate) (hv : ValidDate d)
    (hw7 : ∀ w, r.dayOfWeek = some w → w < 7) :
    ValidDate (stageWeek r d) ∧ dayNumber d ≤ dayNumber (stageWeek r d) ∧
    (stageWeek r d).hour = d.hour ∧ (stageWeek r d).minute = d.minute ∧
    (stageWeek r d).second = d.second ∧ (stageWeek r d).ms = d.ms := by
  cases hdw : r.dayOfWeek with
  | none =>
    have hred : stageWeek r d = d := by
      unfold stageWeek; rw [hdw]
    rw [hred]
    exact ⟨hv, Nat.le_refl _, rfl, rfl, rfl, rfl⟩
  | some w =>
    have hred : stageWeek r d
        = if r.frequency ≠ "daily" then advanceToWeekdayFuel 7 w d else d := by
      unfold stageWeek; rw [hdw]
    rw [hred]
    by_cases hf : r.frequency ≠ "daily"
    · rw [if_pos hf]
      have hm7 : (w + 7 - getDay d) % 7 ≤ 7 := by
        have := Nat.mod_lt (w + 7 - getDay d) (show 0 < 7 by omega)
        omega
      obtain ⟨a1, a2, a3, ah, am, as2, ams⟩ :=
        advanceToWeekday_spec w (hw7 w hdw) 7 d hv hm7
      exact ⟨a1, by omega, ah, am, as2, ams⟩
    · rw [if_neg hf]
      exact ⟨hv, Nat.le_refl _, rfl, rfl, rfl, rfl⟩

theorem setDate_small (d : JSDate) (n : Nat) (hn : n ≤ daysInMonth d.year d.month) :
    setDate d n = { d with day := n } := by
  unfold setDate
  have he : normDay d.year d.month n = (d.year, d.month, n) := by
    rw [normDay_step, if_neg (Nat.not_lt.mpr hn)]
  rw [he]

theorem stageClamp_skip (r : Recurring) (d : JSDate)
    (hf : ¬ (r.frequency = "monthly" ∨ r.frequency = "quarterly")) :
    stageClamp r d = d := by
  cases hd : r.dayOfMonth with
  | none =>
    unfold stageClamp; rw [hd]
  | some dom =>
    have hred : stageClamp r d
        = if dom ≠ 0 ∧ (r.frequency = "monthly" ∨ r.frequency = "quarterly") then
            setDate d (min dom (daysInMonth d.year d.month))
          else d := by
      unfold stageClamp; rw [hd]
    rw [hred, if_neg (by tauto)]

theorem stageClamp_spec (r : Recurring) (d : JSDate) (hv : ValidDate d)
    (hdom : ∀ dom, r.dayOfMonth = some dom → 1 ≤ dom ∧ dom ≤ 31) :
    ValidDate (stageClamp r d) ∧
    (stageClamp r d).year = d.year ∧ (stageClamp r d).month = d.month ∧
    (stageClamp r d).hour = d.hour ∧ (stageClamp r d).minute = d.minute ∧
    (stageClamp r d).second = d.second ∧ (stageClamp r d).ms = d.ms := by
  cases hd : r.dayOfMonth with
  | none =>
    have hred : stageClamp r d = d := by
      unfold stageClamp; rw [hd]
    rw [hred]
    exact ⟨hv, rfl, rfl, rfl, rfl, rfl, rfl⟩
  | some dom =>
    have hred : stageClamp r d
        = if dom ≠ 0 ∧ (r.frequency = "monthly" ∨ r.frequency = "quarterly") then
            setDate d (min dom (daysInMonth d.year d.month))
          else d := by
      unfold stageClamp; rw [hd]
    rw [hred]
    by_cases hc : dom ≠ 0 ∧ (r.frequency = "monthly" ∨ r.frequency = "quarterly")
    · rw [if_pos hc, setDate_small d _ (Nat.min_le_right _ _)]
      have h1 := hdom dom hd
      have hge := daysInMonth_ge d.year d.month
      exact ⟨⟨hv.1, hv.2.1,
        show 1 ≤ min dom (daysInMonth d.year d.month) by omega,
        show min dom (daysInMonth d.year d.month) ≤ daysInMonth d.year d.month by omega,
        hv.2.2.2.2.1, hv.2.2.2.2.2.1, hv.2.2.2.2.2.2.1, hv.2.2.2.2.2.2.2⟩,
        rfl, rfl, rfl, rfl, rfl, rfl⟩
    · rw [if_neg hc]
      exact ⟨hv, rfl, rfl, rfl, rfl, rfl, rfl⟩

theorem stageTime_spec (r : Recurring) (d : JSDate) (hv : ValidDate d)
    (ht : ∀ hm, r.timeOfDay = some hm → hm.1 < 24 ∧ hm.2 < 60) :
    dayNumber (stageTime r d) = dayNumber d ∧
    (stageTime r d).hour ≤ 23 ∧ (stageTime r d).minute ≤ 59 ∧
    (stageTime r d).second ≤ 59 ∧ (stageTime r d).ms ≤ 999 := by
  cases htd : r.timeOfDay with
  | none =>
    have hred : stageTime r d = d := by
      unfold stageTime; rw [htd]
    rw [hred]
    exact ⟨rfl, hv.2.2.2.2.1, hv.2.2.2.2.2.1, hv.2.2.2.2.2.2.1, hv.2.2.2.2.2.2.2⟩
  | some hm =>
    have hred : stageTime r d
        = { d with hour := hm.1, minute := hm.2, second := 0, ms := 0 } := by
      unfold stageTime; rw [htd]
    rw [hred]
    have hb := ht hm htd
    exact ⟨rfl, show hm.1 ≤ 23 by omega, show hm.2 ≤ 59 by omega,
      show (0 : Nat) ≤ 59 by omega, show (0 : Nat) ≤ 999 by omega⟩

theorem toMs_lt_of_day_lt (a b : JSDate)
    (ha : a.hour ≤ 23) (hmi : a.minute ≤ 59) (hs : a.second ≤ 59) (hms : a.ms ≤ 999)
    (hd : dayNumber a < dayNumber b) :
    toMs a < toMs b := by
  unfold toMs
  omega

theorem computeNext_gt_dayCase (r : Recurring) (now : JSDate) (k : Nat)
    (hv : ValidDate now)
    (hw7 : ∀ w, r.dayOfWeek = some w → w < 7)
    (ht : ∀ hm, r.timeOfDay = some hm → hm.1 < 24 ∧ hm.2 < 60)
    (hk : 1 ≤ k)
    (hnm : ¬ (r.frequency = "monthly" ∨ r.frequency = "quarterly"))
    (hbase : baseAdvance r.frequency now = setDate now (now.day + k)) :
    toMs now < toMs (computeNextOccurrence r now) := by
  unfold computeNextOccurrence
  rw [hbase]
  obtain ⟨b1, b2, _, _⟩ := setDate_spec now (now.day + k) hv (by omega)
  obtain ⟨w1, w2, _⟩ := stageWeek_spec r (setDate now (now.day + k)) b1 hw7
  rw [stageClamp_skip r (stageWeek r (setDate now (now.day + k))) hnm]
  obtain ⟨t2, _, _, _, _⟩ := stageTime_spec r (stageWeek r (setDate now (now.day + k))) w1 ht
  apply toMs_lt_of_day_lt now _ hv.2.2.2.2.1 hv.2.2.2.2.2.1 hv.2.2.2.2.2.2.1 hv.2.2.2.2.2.2.2
  omega

theorem computeNext_gt_monthCase (r : Recurring) (now : JSDate) (k : Nat)
    (hv : ValidDate now)
    (hw7 : ∀ w, r.dayOfWeek = some w → w < 7)
    (hdom : ∀ dom, r.dayOfMonth = some dom → 1 ≤ dom ∧ dom ≤ 31)
    (ht : ∀ hm, r.timeOfDay = some hm → hm.1 < 24 ∧ hm.2 < 60)
    (hk : 1 ≤ k)
    (hbase : baseAdvance r.frequency now = setMonth now (now.month + k)) :
    toMs now < toMs (computeNextOccurrence r now) := by
  unfold computeNextOccurrence
  rw [hbase]
  obtain ⟨b1, _, b3, _⟩ := setMonth_spec now (now.month + k) hv
  obtain ⟨w1, w2, _⟩ := stageWeek_spec r (setMonth now (now.month + k)) b1 hw7
  have hymw : 12 * (setMonth now (now.month + k)).year + (setMonth now (now.month + k)).month
      ≤ 12 * (stageWeek r (setMonth now (now.month + k))).year
        + (stageWeek r (setMonth now (now.month + k))).month := by
    by_contra hcon
    push_neg at hcon
    have hlt := dayNumber_lt_of_ym_lt
      (stageWeek r (setMonth now (now.month + k))) (setMonth now (now.month + k))
      w1.2.1 w1.2.2.2.1 b1.2.1 b1.2.2.1 w1.1 hcon
    omega
  obtain ⟨c1, c2y, c2m, _⟩ :=
    stageClamp_spec r (stageWeek r (setMonth now (now.month + k))) w1 hdom
  obtain ⟨t2, _, _, _, _⟩ :=
    stageTime_spec r (stageClamp r (stageWeek r (setMonth now (now.month + k)))) c1 ht
  apply toMs_lt_of_day_lt now _ hv.2.2.2.2.1 hv.2.2.2.2.2.1 hv.2.2.2.2.2.2.1 hv.2.2.2.2.2.2.2
  rw [t2]
  have hc_day : dayNumber (stageClamp r (stageWeek r (setMonth now (now.month + k))))
      = monthIndexDays (12 * (stageClamp r (stageWeek r (setMonth now (now.month + k)))).year
          + (stageClamp r (stageWeek r (setMonth now (now.month + k)))).month)
        + ((stageClamp r (stageWeek r (setMonth now (now.month + k)))).day - 1) :=
    toDays_eq_mid _ _ _ c1.2.1
  have hnow_day : dayNumber now
      = monthIndexDays (12 * now.year + now.month) + (now.day - 1) :=
    toDays_eq_mid _ _ _ hv.2.1
  have hsucc := monthIndexDays_succ_ym now.year now.month hv.2.1 hv.1
  have hmono := monthIndexDays_mono (12 * now.year + now.month + 1)
    (12 * (stageClamp r (stageWeek r (setMonth now (now.month + k)))).year
      + (stageClamp r (stageWeek r (setMonth now (now.month + k)))).month)
    (by have := hv.1; omega) (by rw [c2y, c2m]; omega)
  have hday_now := hv.2.2.2.1
  have h1day := hv.2.2.1
  have hdim28 := daysInMonth_ge now.year now.month
  omega

theorem computeNext_gt (r : Recurring) (now : JSDate)
    (hv : ValidDate now) (hr : validRule r = true) :
    toMs now < toMs (computeNextOccurrence r now) := by
  obtain ⟨hw7, hdom, ht⟩ := validRule_parts r hr
  by_cases h1 : r.frequency = "daily"
  · exact computeNext_gt_dayCase r now 1 hv hw7 ht (by omega)
      (by rw [h1]; simp) (by simp [baseAdvance, h1])
  by_cases h2 : r.frequency = "weekly"
  · exact computeNext_gt_dayCase r now 7 hv hw7 ht (by omega)
      (by rw [h2]; simp) (by simp [baseAdvance, h1, h2])
  by_cases h3 : r.frequency = "biweekly"
  · exact computeNext_gt_dayCase r now 14 hv hw7 ht (by omega)
      (by rw [h3]; simp) (by simp [baseAdvance, h1, h2, h3])
  by_cases h4 : r.frequency = "monthly"
  · exact computeNext_gt_monthCase r now 1 hv hw7 hdom ht (by omega)
      (by simp [baseAdvance, h1, h2, h3, h4])
  by_cases h5 : r.frequency = "quarterly"
  · exact computeNext_gt_monthCase r now 3 hv hw7 hdom ht (by omega)
      (by simp [baseAdvance, h1, h2, h3, h4, h5])
  · exact computeNext_gt_monthCase r now 1 hv hw7 hdom ht (by omega)
      (by simp [baseAdvance, h1, h2, h3, h4, h5])

/-! ### Lemmas about the campaign loop -/

/-- The `nextScheduled > lastSent` data invariant of a stored definition. -/
def schedInv (c : Campaign) : Prop :=
  ∀ ls ns, c.recurring.lastSent = some ls → c.recurring.nextScheduled = some ns →
    toMs ls < toMs ns

theorem stepDef_notDue (d : DispatchOutcome) (now : JSDate) (c : Campaign)
    (h : isDue c now = false) :
    stepDef d now c = (c, [], []) := by
  unfold stepDef
  rw [h]
  rfl

theorem stepDef_notOk (d : DispatchOutcome) (now : JSDate) (c : Campaign)
    (hd : d ≠ .ok) :
    (stepDef d now c).1 = c := by
  cases d with
  | ok => exact absurd rfl hd
  | createFail => unfold stepDef; by_cases h : isDue c now <;> simp [h]
  | scheduleFail => unfold stepDef; by_cases h : isDue c now <;> simp [h]

theorem stepDef_outs (d : DispatchOutcome) (now : JSDate) (c : Campaign) :
    (stepDef d now c).2.2 = if isDue c now then [outcomeFor d now c] else [] := by
  unfold stepDef
  by_cases h : isDue c now <;> cases d <;> simp [h]

theorem stepDef_ok_def (now : JSDate) (c : Campaign) (hdue : isDue c now = true) :
    (stepDef .ok now c).1
      = { c with recurring :=
            { c.recurring with
                lastSent := some now
                nextScheduled := some (computeNextOccurrence c.recurring now) } } := by
  unfold stepDef
  rw [hdue]
  rfl

theorem stepDef_fail_def (d : DispatchOutcome) (now : JSDate) (c : Campaign)
    (hdue : isDue c now = true) (hd : d ≠ .ok) :
    stepDef d now c
      = (c,
         [instanceFor c (computeNextOccurrence c.recurring now)
            (if d = .createFail then "draft" else "scheduled")],
         [outcomeFor d now c]) := by
  unfold stepDef
  rw [hdue]
  cases d with
  | createFail => rfl
  | scheduleFail => rfl
  | ok => exact absurd rfl hd

theorem processList_length (now : JSDate) (dispatch : Nat → DispatchOutcome) :
    ∀ (cs : List Campaign) (k : Nat),
      (processList now dispatch k cs).1.length = cs.length := by
  intro cs
  induction cs with
  | nil => intro k; rfl
  | cons c rest ih =>
    intro k
    simp [processList, ih (k + 1)]

theorem processList_get? (now : JSDate) (dispatch : Nat → DispatchOutcome) :
    ∀ (cs : List Campaign) (k i : Nat),
      (processList now dispatch k cs).1[i]?
        = (cs[i]?).map (fun c => (stepDef (dispatch (k + i)) now c).1) := by
  intro cs
  induction cs with
  | nil => intro k i; simp [processList]
  | cons c rest ih =>
    intro k i
    cases i with
    | zero => simp [processList]
    | succ i =>
      have hh := ih (k + 1) i
      simp only [processList, List.getElem?_cons_succ]
      rw [hh]
      have he : k + 1 + i = k + (i + 1) := by omega
      rw [he]

theorem processList_outs_mem (now : JSDate) (dispatch : Nat → DispatchOutcome) :
    ∀ (cs : List Campaign) (k i : Nat) (c : Campaign),
      cs[i]? = some c → isDue c now = true →
      outcomeFor (dispatch (k + i)) now c ∈ (processList now dispatch k cs).2.2 := by
  intro cs
  induction cs with
  | nil => intro k i c hc; simp at hc
  | cons c0 rest ih =>
    intro k i c hc hdue
    cases i with
    | zero =>
      simp only [List.getElem?_cons_zero, Option.some_inj] at hc
      subst hc
      simp only [processList, List.mem_append]
      left
      rw [stepDef_outs, hdue]
      simp
    | succ i =>
      simp only [List.getElem?_cons_succ] at hc
      have hh := ih (k + 1) i c hc hdue
      have he : k + 1 + i = k + (i + 1) := by omega
      rw [he] at hh
      simp only [processList, List.mem_append]
      right
      exact hh

theorem processList_outs_length (now : JSDate) (dispatch : Nat → DispatchOutcome) :
    ∀ (cs : List Campaign) (k : Nat),
      (processList now dispatch k cs).2.2.length
        = (cs.filter (fun c => isDue c now)).length := by
  intro cs
  induction cs with
  | nil => intro k; rfl
  | cons c rest ih =>
    intro k
    simp only [processList, List.length_append, ih (k + 1), stepDef_outs,
      List.filter_cons]
    by_cases h : isDue c now
    · simp [h]
      omega
    · simp [h]

theorem selectRecurring_mem (store : List Campaign) (c : Campaign) :
    c ∈ selectRecurring store
      ↔ c ∈ store ∧ c.recurring.enabled = true ∧
        (c.status = "draft" ∨ c.status = "sent") := by
  simp [selectRecurring, List.mem_filter, and_assoc]

/-! ### Exact characterization of the month-based base advance -/

theorem setMonth_char (d : JSDate) (n : Nat) (h31 : d.day ≤ 31) :
    (d.day ≤ daysInMonth (d.year + n / 12) (n % 12) →
      setMonth d n = { d with year := d.year + n / 12, month := n % 12 }) ∧
    (daysInMonth (d.year + n / 12) (n % 12) < d.day →
      setMonth d n = { d with
        year := if n % 12 = 11 then d.year + n / 12 + 1 else d.year + n / 12
        month := if n % 12 = 11 then 0 else n % 12 + 1
        day := d.day - daysInMonth (d.year + n / 12) (n % 12) }) := by
  constructor
  · intro h
    unfold setMonth
    rw [normDay_step, if_neg (Nat.not_lt.mpr h)]
  · intro h
    unfold setMonth
    rw [normDay_step, if_pos h]
    have hge := daysInMonth_ge (d.year + n / 12) (n % 12)
    by_cases hm : n % 12 = 11
    · rw [if_pos hm, if_pos hm, if_pos hm]
      have hsmall : ¬ daysInMonth (d.year + n / 12 + 1) 0
          < d.day - daysInMonth (d.year + n / 12) (n % 12) := by
        have h0 := daysInMonth_ge (d.year + n / 12 + 1) 0
        omega
      rw [normDay_step, if_neg hsmall]
    · rw [if_neg hm, if_neg hm, if_neg hm]
      have hsmall : ¬ daysInMonth (d.year + n / 12) (n % 12 + 1)
          < d.day - daysInMonth (d.year + n / 12) (n % 12) := by
        have h0 := daysInMonth_ge (d.year + n / 12) (n % 12 + 1)
        omega
      rw [normDay_step, if_neg hsmall]

/-! ### Concrete sample data used in witnesses and counterexamples -/

/-- A reference instant, 2024-06-03 (a Monday) 10:00 local time. -/
def sampleNow : JSDate := ⟨2024, 5, 3, 10, 0, 0, 0⟩

/-- A weekly recurrence with the schema defaults. -/
def ruleWeekly : Recurring := ⟨true, "weekly", none, none, some (9, 0), none, none⟩

def campaignA : Campaign :=
  ⟨"Campaign A", "first sample", "newsletter", "tplA", "segA", ruleWeekly, "draft"⟩

def campaignB : Campaign :=
  ⟨"Campaign B", "second sample", "newsletter", "tplB", "segB", ruleWeekly, "sent"⟩

def campaignC : Campaign :=
  ⟨"Campaign C", "third sample", "promotional", "tplC", "segC", ruleWeekly, "draft"⟩

/-- An enabled, due definition whose status is `cancelled`. -/
def campaignCancelled : Campaign :=
  ⟨"Campaign X", "cancelled sample", "newsletter", "tplX", "segX", ruleWeekly, "cancelled"⟩

/-- A dispatcher that fails the create call for the second definition only. -/
def dispatchFailSecond : Nat → DispatchOutcome :=
  fun i => if i = 1 then .createFail else .ok

/-! ### Claim theorems -/

/-- C1: for every schema-valid recurrence rule (any of the five frequencies,
valid dayOfWeek/dayOfMonth/timeOfDay) and every valid reference instant
`now`, the next-occurrence computation of `processRecurringCampaigns`
returns a timestamp strictly greater than `now`. -/
theorem nextOccurrence_strictly_after_now (r : Recurring) (now : JSDate)
    (hv : ValidDate now) (hr : validRule r = true) :
    toMs now < toMs (computeNextOccurrence r now) :=
  computeNext_gt r now hv hr

theorem nextOccurrence_strictly_after_now_witness :
    ValidDate sampleNow ∧ validRule ruleWeekly = true ∧
    toMs sampleNow < toMs (computeNextOccurrence ruleWeekly sampleNow) :=
  ⟨by decide, by decide,
   nextOccurrence_strictly_after_now ruleWeekly sampleNow (by decide) (by decide)⟩

/-- C2 (counterexample): the monthly base advance from 2024-01-31 lands on
2024-03-02, not in the immediately following month (February, index 1). -/
theorem baseInterval_monthly_overflow_cex :
    baseAdvance "monthly" ⟨2024, 0, 31, 9, 0, 0, 0⟩ = ⟨2024, 2, 2, 9, 0, 0, 0⟩ ∧
    (baseAdvance "monthly" ⟨2024, 0, 31, 9, 0, 0, 0⟩).month ≠ 1 := by decide

/-- C2 (amended): the base step advances `now` by exactly +1/+7/+14 days for
daily/weekly/biweekly; for monthly (and quarterly, with +3) it adds 1 (resp.
3) to the month index keeping the day-of-month when that day exists in the
target month, and otherwise overflows into the month after it by the excess
days. -/
theorem baseInterval_amended (now : JSDate) (hv : ValidDate now) :
    dayNumber (baseAdvance "daily" now) = dayNumber now + 1 ∧
    dayNumber (baseAdvance "weekly" now) = dayNumber now + 7 ∧
    dayNumber (baseAdvance "biweekly" now) = dayNumber now + 14 ∧
    (now.day ≤ daysInMonth (now.year + (now.month + 1) / 12) ((now.month + 1) % 12) →
      baseAdvance "monthly" now = { now with
        year := now.year + (now.month + 1) / 12
        month := (now.month + 1) % 12 }) ∧
    (daysInMonth (now.year + (now.month + 1) / 12) ((now.month + 1) % 12) < now.day →
      baseAdvance "monthly" now = { now with
        year := if (now.month + 1) % 12 = 11 then now.year + (now.month + 1) / 12 + 1
                else now.year + (now.month + 1) / 12
        month := if (now.month + 1) % 12 = 11 then 0 else (now.month + 1) % 12 + 1
        day := now.day - daysInMonth (now.year + (now.month + 1) / 12) ((now.month + 1) % 12) }) ∧
    (now.day ≤ daysInMonth (now.year + (now.month + 3) / 12) ((now.month + 3) % 12) →
      baseAdvance "quarterly" now = { now with
        year := now.year + (now.month + 3) / 12
        month := (now.month + 3) % 12 }) ∧
    (daysInMonth (now.year + (now.month + 3) / 12) ((now.month + 3) % 12) < now.day →
      baseAdvance "quarterly" now = { now with
        year := if (now.month + 3) % 12 = 11 then now.year + (now.month + 3) / 12 + 1
                else now.year + (now.month + 3) / 12
        month := if (now.month + 3) % 12 = 11 then 0 else (now.month + 3) % 12 + 1
        day := now.day - daysInMonth (now.year + (now.month + 3) / 12) ((now.month + 3) % 12) }) := by
  have h31 : now.day ≤ 31 := Nat.le_trans hv.2.2.2.1 (daysInMonth_le now.year now.month)
  have hday1 : 1 ≤ now.day := hv.2.2.1
  have hm := setMonth_char now (now.month + 1) h31
  have hq := setMonth_char now (now.month + 3) h31
  have hb1 : baseAdvance "daily" now = setDate now (now.day + 1) := by
    simp [baseAdvance]
  have hb2 : baseAdvance "weekly" now = setDate now (now.day + 7) := by
    simp [baseAdvance]
  have hb3 : baseAdvance "biweekly" now = setDate now (now.day + 14) := by
    simp [baseAdvance]
  have hb4 : baseAdvance "monthly" now = setMonth now (now.month + 1) := by
    simp [baseAdvance]
  have hb5 : baseAdvance "quarterly" now = setMonth now (now.month + 3) := by
    simp [baseAdvance]
  refine ⟨?_, ?_, ?_, ?_, ?_, ?_, ?_⟩
  · rw [hb1]
    have hs := (setDate_spec now (now.day + 1) hv (by omega)).2.1
    omega
  · rw [hb2]
    have hs := (setDate_spec now (now.day + 7) hv (by omega)).2.1
    omega
  · rw [hb3]
    have hs := (setDate_spec now (now.day + 14) hv (by omega)).2.1
    omega
  · intro h
    rw [hb4, hm.1 h]
  · intro h
    rw [hb4, hm.2 h]
  · intro h
    rw [hb5, hq.1 h]
  · intro h
    rw [hb5, hq.2 h]

theorem baseInterval_amended_witness :
    dayNumber (baseAdvance "daily" sampleNow) = dayNumber sampleNow + 1 ∧
    dayNumber (baseAdvance "weekly" sampleNow) = dayNumber sampleNow + 7 :=
  ⟨(baseInterval_amended sampleNow (by decide)).1,
   (baseInterval_amended sampleNow (by decide)).2.1⟩

/-- C3: when `dayOfMonth` is set (nonzero) and the frequency is monthly or
quarterly, the clamp step sets the working date's day to
`min dayOfMonth (daysInMonth of the already-advanced month/year)`; concretely
the rule (monthly, dayOfMonth 31, 09:00) at 2024-01-15 yields 2024-02-29
09:00, at 2023-01-15 yields 2023-02-28 09:00, and at 2024-03-15 yields
2024-04-30 09:00. -/
theorem dayOfMonth_clamp :
    (∀ (r : Recurring) (now : JSDate) (dom : Nat),
      validRule r = true → r.dayOfMonth = some dom →
      (r.frequency = "monthly" ∨ r.frequency = "quarterly") →
      stageClamp r (stageWeek r (baseAdvance r.frequency now))
        = { stageWeek r (baseAdvance r.frequency now) with
            day := min dom (daysInMonth
              (stageWeek r (baseAdvance r.frequency now)).year
              (stageWeek r (baseAdvance r.frequency now)).month) }) ∧
    computeNextOccurrence ⟨true, "monthly", none, some 31, some (9, 0), none, none⟩
        ⟨2024, 0, 15, 10, 30, 0, 0⟩ = ⟨2024, 1, 29, 9, 0, 0, 0⟩ ∧
    computeNextOccurrence ⟨true, "monthly", none, some 31, some (9, 0), none, none⟩
        ⟨2023, 0, 15, 10, 30, 0, 0⟩ = ⟨2023, 1, 28, 9, 0, 0, 0⟩ ∧
    computeNextOccurrence ⟨true, "monthly", none, some 31, some (9, 0), none, none⟩
        ⟨2024, 2, 15, 10, 30, 0, 0⟩ = ⟨2024, 3, 30, 9, 0, 0, 0⟩ := by
  refine ⟨?_, by decide, by decide, by decide⟩
  intro r now dom hr hdom hf
  obtain ⟨_, hdomv, _⟩ := validRule_parts r hr
  have h1 := (hdomv dom hdom).1
  have hred : stageClamp r (stageWeek r (baseAdvance r.frequency now))
      = if dom ≠ 0 ∧ (r.frequency = "monthly" ∨ r.frequency = "quarterly") then
          setDate (stageWeek r (baseAdvance r.frequency now))
            (min dom (daysInMonth (stageWeek r (baseAdvance r.frequency now)).year
              (stageWeek r (baseAdvance r.frequency now)).month))
        else stageWeek r (baseAdvance r.frequency now) := by
    unfold stageClamp
    rw [hdom]
  rw [hred, if_pos ⟨by omega, hf⟩, setDate_small _ _ (Nat.min_le_right _ _)]

theorem dayOfMonth_clamp_witness :
    stageClamp ⟨true, "monthly", none, some 31, some (9, 0), none, none⟩
        (stageWeek ⟨true, "monthly", none, some 31, some (9, 0), none, none⟩
          (baseAdvance
            (Recurring.frequency ⟨true, "monthly", none, some 31, some (9, 0), none, none⟩)
            ⟨2024, 0, 15, 10, 30, 0, 0⟩))
      = ⟨2024, 1, 29, 10, 30, 0, 0⟩ :=
  dayOfMonth_clamp.1 ⟨true, "monthly", none, some 31, some (9, 0), none, none⟩
    ⟨2024, 0, 15, 10, 30, 0, 0⟩ 31 (by decide) rfl (Or.inl rfl)

/-- C4: for a day-of-week target in 0..6 and any valid base date the search
loop lands exactly on the target weekday, advances by
`(target + 7 - weekday) % 7 ≤ 7` day-steps, and never moves backward;
concretely, weekly with dayOfWeek 3 at 2024-06-03 (Monday) gives the base
date 2024-06-10 and the final date 2024-06-12 (Wednesday). -/
theorem dayOfWeek_search_bounded :
    (∀ (b : JSDate) (w : Nat), ValidDate b → w < 7 →
      getDay (advanceToWeekdayFuel 7 w b) = w ∧
      dayNumber (advanceToWeekdayFuel 7 w b) = dayNumber b + (w + 7 - getDay b) % 7 ∧
      (w + 7 - getDay b) % 7 ≤ 7 ∧
      dayNumber b ≤ dayNumber (advanceToWeekdayFuel 7 w b)) ∧
    baseAdvance "weekly" ⟨2024, 5, 3, 0, 0, 0, 0⟩ = ⟨2024, 5, 10, 0, 0, 0, 0⟩ ∧
    computeNextOccurrence ⟨true, "weekly", some 3, none, none, none, none⟩
        ⟨2024, 5, 3, 0, 0, 0, 0⟩ = ⟨2024, 5, 12, 0, 0, 0, 0⟩ := by
  refine ⟨?_, by decide, by decide⟩
  intro b w hv hw
  have hm7 : (w + 7 - getDay b) % 7 ≤ 7 := by
    have := Nat.mod_lt (w + 7 - getDay b) (show 0 < 7 by omega)
    omega
  obtain ⟨_, a2, a3, _⟩ := advanceToWeekday_spec w hw 7 b hv hm7
  exact ⟨a3, a2, hm7, by omega⟩

theorem dayOfWeek_search_bounded_witness :
    getDay (advanceToWeekdayFuel 7 3 ⟨2024, 5, 10, 0, 0, 0, 0⟩) = 3 ∧
    dayNumber (advanceToWeekdayFuel 7 3 ⟨2024, 5, 10, 0, 0, 0, 0⟩)
      = dayNumber ⟨2024, 5, 10, 0, 0, 0, 0⟩
        + (3 + 7 - getDay ⟨2024, 5, 10, 0, 0, 0, 0⟩) % 7 ∧
    (3 + 7 - getDay ⟨2024, 5, 10, 0, 0, 0, 0⟩) % 7 ≤ 7 ∧
    dayNumber ⟨2024, 5, 10, 0, 0, 0, 0⟩
      ≤ dayNumber (advanceToWeekdayFuel 7 3 ⟨2024, 5, 10, 0, 0, 0, 0⟩) :=
  dayOfWeek_search_bounded.1 ⟨2024, 5, 10, 0, 0, 0, 0⟩ 3 (by decide) (by decide)

/-- C5 (counterexample): with `dayOfMonth` set, an unrecognized frequency is
not identical to monthly: at 2024-01-20 with dayOfMonth 15, frequency
"yearly" yields 2024-02-20 09:00 while "monthly" yields 2024-02-15 09:00. -/
theorem fallback_not_identical_cex :
    computeNextOccurrence ⟨true, "yearly", none, some 15, some (9, 0), none, none⟩
        ⟨2024, 0, 20, 10, 0, 0, 0⟩
      ≠ computeNextOccurrence ⟨true, "monthly", none, some 15, some (9, 0), none, none⟩
        ⟨2024, 0, 20, 10, 0, 0, 0⟩ := by decide

/-- C5 (amended): an unrecognized frequency always gets the monthly base
interval, and the whole computation is identical to the same rule with
frequency monthly exactly when `dayOfMonth` is unset (or the falsy 0); when
`dayOfMonth` is set the monthly/quarterly clamp step is skipped for the
unrecognized value, so results can differ. -/
theorem fallback_amended (r : Recurring) (now : JSDate)
    (h1 : r.frequency ≠ "daily") (h2 : r.frequency ≠ "weekly")
    (h3 : r.frequency ≠ "biweekly") (h4 : r.frequency ≠ "monthly")
    (h5 : r.frequency ≠ "quarterly") :
    baseAdvance r.frequency now = baseAdvance "monthly" now ∧
    ((r.dayOfMonth = none ∨ r.dayOfMonth = some 0) →
      computeNextOccurrence r now
        = computeNextOccurrence { r with frequency := "monthly" } now) := by
  obtain ⟨en, freq, dow, dom, tod, ls, ns⟩ := r
  replace h1 : freq ≠ "daily" := h1
  replace h2 : freq ≠ "weekly" := h2
  replace h3 : freq ≠ "biweekly" := h3
  replace h4 : freq ≠ "monthly" := h4
  replace h5 : freq ≠ "quarterly" := h5
  constructor
  · simp [baseAdvance, h1, h2, h3, h4, h5]
  · intro hdom
    rcases hdom with h | h
    · replace h : dom = none := h
      subst h
      cases dow <;>
        simp [computeNextOccurrence, baseAdvance, stageWeek, stageClamp, stageTime,
          h1, h2, h3, h4, h5]
    · replace h : dom = some 0 := h
      subst h
      cases dow <;>
        simp [computeNextOccurrence, baseAdvance, stageWeek, stageClamp, stageTime,
          h1, h2, h3, h4, h5]

theorem fallback_amended_witness :
    computeNextOccurrence (⟨true, "yearly", none, none, some (9, 0), none, none⟩ : Recurring)
        sampleNow
      = computeNextOccurrence
          ({ (⟨true, "yearly", none, none, some (9, 0), none, none⟩ : Recurring) with
              frequency := "monthly" }) sampleNow :=
  (fallback_amended ⟨true, "yearly", none, none, some (9, 0), none, none⟩ sampleNow
    (by decide) (by decide) (by decide) (by decide) (by decide)).2 (Or.inl rfl)

/-- C6: when the dispatcher fails the create or schedule step for a due
definition, that definition is left unchanged in the store (so its
`recurring.lastSent`/`recurring.nextScheduled` do not move), a failure
outcome carrying its name and an error message is in the results, and every
due definition of the batch still contributes exactly one outcome. -/
theorem dispatch_failure_isolated (now : JSDate) (dispatch : Nat → DispatchOutcome)
    (cs : List Campaign) (i : Nat) (c : Campaign)
    (hc : cs[i]? = some c) (hdue : isDue c now = true) (hd : dispatch i ≠ .ok) :
    (processList now dispatch 0 cs).1[i]? = some c ∧
    outcomeFor (dispatch i) now c ∈ (processList now dispatch 0 cs).2.2 ∧
    (outcomeFor (dispatch i) now c).success = false ∧
    (outcomeFor (dispatch i) now c).campaign = c.name ∧
    (outcomeFor (dispatch i) now c).error ≠ none ∧
    (processList now dispatch 0 cs).2.2.length
      = (cs.filter (fun x => isDue x now)).length := by
  have hg := processList_get? now dispatch cs 0 i
  have hm := processList_outs_mem now dispatch cs 0 i c hc hdue
  have hz : (0 : Nat) + i = i := by omega
  rw [hz] at hg hm
  refine ⟨?_, hm, ?_, ?_, ?_, processList_outs_length now dispatch cs 0⟩
  · rw [hg, hc]
    simp [stepDef_notOk (dispatch i) now c hd]
  · cases hdd : dispatch i with
    | ok => exact absurd hdd hd
    | createFail => rfl
    | scheduleFail => rfl
  · cases hdd : dispatch i with
    | ok => exact absurd hdd hd
    | createFail => rfl
    | scheduleFail => rfl
  · cases hdd : dispatch i with
    | ok => exact absurd hdd hd
    | createFail => simp [outcomeFor]
    | scheduleFail => simp [outcomeFor]

theorem dispatch_failure_isolated_witness :
    (processList sampleNow dispatchFailSecond 0 [campaignA, campaignB, campaignC]).1[1]?
      = some campaignB ∧
    outcomeFor (dispatchFailSecond 1) sampleNow campaignB
      ∈ (processList sampleNow dispatchFailSecond 0 [campaignA, campaignB, campaignC]).2.2 ∧
    (processList sampleNow dispatchFailSecond 0 [campaignA, campaignB, campaignC]).2.2.length
      = ([campaignA, campaignB, campaignC].filter (fun x => isDue x sampleNow)).length :=
  ⟨(dispatch_failure_isolated sampleNow dispatchFailSecond [campaignA, campaignB, campaignC]
      1 campaignB (by decide) (by decide) (by decide)).1,
   (dispatch_failure_isolated sampleNow dispatchFailSecond [campaignA, campaignB, campaignC]
      1 campaignB (by decide) (by decide) (by decide)).2.1,
   (dispatch_failure_isolated sampleNow dispatchFailSecond [campaignA, campaignB, campaignC]
      1 campaignB (by decide) (by decide) (by decide)).2.2.2.2.2⟩

/-- C7 (counterexample): after a create-step dispatch failure for a due
definition the store does hold a new CampaignInstance record (status draft),
and after a schedule-step failure the stored instance has already been
advanced to status scheduled — partial-success state is persisted. -/
theorem dispatch_failure_persists_instance_cex :
    isDue campaignA sampleNow = true ∧
    (processRecurringCampaigns true [campaignA]
        (fun _ => DispatchOutcome.createFail) sampleNow).2.2.length = 1 ∧
    ((processRecurringCampaigns true [campaignA]
        (fun _ => DispatchOutcome.createFail) sampleNow).2.2.map
      (fun inst => inst.status)) = ["draft"] ∧
    ((processRecurringCampaigns true [campaignA]
        (fun _ => DispatchOutcome.scheduleFail) sampleNow).2.2.map
      (fun inst => inst.status)) = ["scheduled"] := by decide

/-- C7 (amended): a dispatch failure at either sub-step leaves the recurring
definition itself unchanged and records a failure outcome, but the
materialized CampaignInstance record is persisted before dispatch: it
remains in the store with status draft after a create failure and with
status scheduled after a schedule failure. -/
theorem dispatch_failure_no_advance_amended (d : DispatchOutcome) (now : JSDate)
    (c : Campaign) (hdue : isDue c now = true) (hd : d ≠ .ok) :
    stepDef d now c
      = (c,
         [instanceFor c (computeNextOccurrence c.recurring now)
            (if d = .createFail then "draft" else "scheduled")],
         [outcomeFor d now c]) ∧
    (outcomeFor d now c).success = false := by
  refine ⟨stepDef_fail_def d now c hdue hd, ?_⟩
  cases d with
  | ok => exact absurd rfl hd
  | createFail => rfl
  | scheduleFail => rfl

theorem dispatch_failure_no_advance_amended_witness :
    stepDef DispatchOutcome.createFail sampleNow campaignA
      = (campaignA,
         [instanceFor campaignA (computeNextOccurrence campaignA.recurring sampleNow)
            (if DispatchOutcome.createFail = DispatchOutcome.createFail then "draft"
             else "scheduled")],
         [outcomeFor DispatchOutcome.createFail sampleNow campaignA]) ∧
    (outcomeFor DispatchOutcome.createFail sampleNow campaignA).success = false :=
  dispatch_failure_no_advance_amended DispatchOutcome.createFail sampleNow campaignA
    (by decide) (by decide)

/-- C8 (counterexample): an enabled definition with no `nextScheduled` (thus
due) whose status is `cancelled` is not selected by the poll query, so a
pass over a store holding only it processes nothing. -/
theorem due_requires_status_cex :
    campaignCancelled.recurring.enabled = true ∧
    campaignCancelled.recurring.nextScheduled = none ∧
    (processRecurringCampaigns true [campaignCancelled]
        (fun _ => DispatchOutcome.ok) sampleNow).1.results = [] ∧
    (processRecurringCampaigns true [campaignCancelled]
        (fun _ => DispatchOutcome.ok) sampleNow).2.1 = [] := by decide

/-- C8 (amended): a stored definition is selected exactly when recurring is
enabled and its status is draft or sent; each selected definition that is
due (nextScheduled absent or not later than now) contributes exactly one
outcome to the poll pass. -/
theorem due_selection_amended (store : List Campaign) (now : JSDate)
    (dispatch : Nat → DispatchOutcome) :
    (∀ c, c ∈ selectRecurring store
      ↔ c ∈ store ∧ c.recurring.enabled = true ∧
        (c.status = "draft" ∨ c.status = "sent")) ∧
    (processRecurringCampaigns true store dispatch now).1.results.length
      = ((selectRecurring store).filter (fun c => isDue c now)).length := by
  refine ⟨fun c => selectRecurring_mem store c, ?_⟩
  have hred : (processRecurringCampaigns true store dispatch now).1.results
      = (processList now dispatch 0 (selectRecurring store)).2.2 := rfl
  rw [hred]
  exact processList_outs_length now dispatch (selectRecurring store) 0

/-- C9: on dispatcher success for a due definition, the scheduler sets
`lastSent` to `now` and `nextScheduled` to the computed next date, records a
success outcome, and the resulting definition satisfies the invariant
`nextScheduled` strictly later than `lastSent`; every dispatch outcome of
the step preserves that invariant. -/
theorem success_advances_schedule (c : Campaign) (now : JSDate)
    (hv : ValidDate now) (hr : validRule c.recurring = true)
    (hdue : isDue c now = true) :
    (stepDef .ok now c).1.recurring.lastSent = some now ∧
    (stepDef .ok now c).1.recurring.nextScheduled
      = some (computeNextOccurrence c.recurring now) ∧
    (stepDef .ok now c).2.2 = [outcomeFor .ok now c] ∧
    (outcomeFor .ok now c).success = true ∧
    schedInv ((stepDef .ok now c).1) ∧
    (∀ d : DispatchOutcome, schedInv c → schedInv ((stepDef d now c).1)) := by
  have hok := stepDef_ok_def now c hdue
  have hgt := computeNext_gt c.recurring now hv hr
  have hinv_ok : schedInv ((stepDef DispatchOutcome.ok now c).1) := by
    intro ls ns hls hns
    rw [hok] at hls hns
    have h1 : some now = some ls := hls
    have h2 : some (computeNextOccurrence c.recurring now) = some ns := hns
    cases h1
    cases h2
    exact hgt
  refine ⟨by rw [hok], by rw [hok], ?_, rfl, hinv_ok, ?_⟩
  · rw [stepDef_outs, if_pos hdue]
  · intro d hinv
    by_cases hd : d = DispatchOutcome.ok
    · subst hd
      exact hinv_ok
    · rw [stepDef_notOk d now c hd]
      exact hinv

theorem success_advances_schedule_witness :
    (stepDef DispatchOutcome.ok sampleNow campaignA).1.recurring.lastSent = some sampleNow ∧
    (stepDef DispatchOutcome.ok sampleNow campaignA).1.recurring.nextScheduled
      = some (computeNextOccurrence campaignA.recurring sampleNow) :=
  ⟨(success_advances_schedule campaignA sampleNow (by decide) (by decide) (by decide)).1,
   (success_advances_schedule campaignA sampleNow (by decide) (by decide) (by decide)).2.1⟩

/-- C10: whenever the initial query succeeds, `processRecurringCampaigns`
reports top-level `success: true` for every dispatcher behaviour (so even if
every definition's dispatch failed), with per-definition failures visible
only inside the results array; only a failing query yields `success: false`. -/
theorem top_level_success_flag (store : List Campaign)
    (dispatch : Nat → DispatchOutcome) (now : JSDate) :
    (processRecurringCampaigns true store dispatch now).1.success = true ∧
    (processRecurringCampaigns true store dispatch now).1.results
      = (processList now dispatch 0 (selectRecurring store)).2.2 ∧
    (processRecurringCampaigns false store dispatch now).1.success = false :=
  ⟨rfl, rfl, rfl⟩
